import Mathlib

/-!
# Verification of the azure_app_exporter credential & resource cache refresher

Shallow embedding of the core of `azure_app_exporter_rs`:

* `src/types/applications.rs` — the resource / credential data model, the
  `endDateTime` timestamp parsing (`parse_date_time`, chrono `%+` / RFC 3339),
  and `PasswordCredential::remaining_seconds`;
* `src/tasks/api_token_updater.rs` — token renewal (`inner`) and the
  renewal scheduler's sleep computation;
* `src/tasks/applications_updater.rs` — the paginated collection fetch
  (the `inner` closure's `while let Some(next_link)` loop), the
  clear-then-extend cache replacement, and the token-gating startup wait;
* `src/global_state.rs` — the applications cache,
  a `HashMap<String, AzureApplication>` behind a reader/writer lock.

Modelling conventions:

* `chrono::DateTime<Utc>` instants and `chrono::TimeDelta` durations are
  modelled as `Int` nanoseconds since the Unix epoch (chrono stores
  nanosecond precision); `std::time::Duration` sleep lengths as `Nat`
  nanoseconds.
* Fallible operations return `Except`; the transport layer (reqwest) is an
  oracle: the list of responses the server hands back, in request order.
* `HashMap<String, AzureApplication>` is modelled as an insert-ordered
  association list with unique keys; `extend` replaces the value of an
  existing key, exactly as `HashMap::insert` does for each pair.
-/

/-! ## Data model (`src/types/applications.rs`) -/

/-- `PasswordCredential` after deserialization: `end_date_time` is the parsed
`Option<DateTime<Utc>>`, modelled as epoch nanoseconds. -/
structure PasswordCredential where
  key_id : String
  display_name : Option String
  end_date_time : Option Int
deriving DecidableEq, Repr

/-- `AzureApplication` after deserialization. -/
structure AzureApplication where
  id : String
  app_id : String
  display_name : Option String
  password_credentials : List PasswordCredential
deriving DecidableEq, Repr

/-- `AzureApplications`: one page of the collection endpoint, with the
`@odata.nextLink` continuation link. -/
structure AzureApplications where
  next_link : Option String
  value : List AzureApplication
deriving DecidableEq, Repr

/-! ## `remaining_seconds` (`src/types/applications.rs`, lines 51-61)

The Rust function returns `f64`: either `f64::INFINITY` or
`(end - now).num_seconds() as f64`.  `num_seconds` on a chrono duration is the
count of *whole* seconds, truncated toward zero, an `i64`; the cast to `f64`
is exact on every value this program can produce, so the result is modelled
exactly by an inductive with an infinity point and an integer point. -/

/-- The value of `PasswordCredential::remaining_seconds`: positive infinity or
a (whole-second) signed count. -/
inductive RemainingSeconds where
  | inf : RemainingSeconds
  | fin : Int → RemainingSeconds
deriving DecidableEq, Repr

/-- chrono `TimeDelta::num_seconds`: whole seconds of a nanosecond duration,
truncated toward zero. -/
def num_seconds (nanos : Int) : Int :=
  nanos.tdiv 1000000000

/-- `PasswordCredential::remaining_seconds`, with `now` (the value of
`Utc::now()`) passed explicitly as epoch nanoseconds. -/
def remaining_seconds (c : PasswordCredential) (now : Int) : RemainingSeconds :=
  match c.end_date_time with
  | none => .inf
  | some end_date_time => .fin (num_seconds (end_date_time - now))

/-! ## Token renewal (`src/tasks/api_token_updater.rs`) -/

/-- The decoded token-endpoint response body. -/
structure AuthToken where
  expires_in : Nat
  access_token : String
deriving DecidableEq, Repr

/-- The body of `azure_api_token_updater::inner`, after the HTTP POST: the
oracle `response` is what `send().await?.json().await?` produced (an error for
transport failure, non-2xx handling or an undecodable body).  Returns the
`Result<u64, _>` of `inner` together with the new contents of the shared
`azure_api_token` cell (which the success path overwrites wholesale and the
error path — the `?` early return — never touches). -/
def token_updater_inner (azure_api_token : String) (response : Except String AuthToken) :
    Except String Nat × String :=
  match response with
  | .error e => (.error e, azure_api_token)
  | .ok r => (.ok r.expires_in, r.access_token)

/-- The sleep the token scheduler picks from `inner`'s result, in nanoseconds:
`Duration::from_secs(expires_in).mul_f64(0.9)` on success (exact scaling by
9/10 — for every `expires_in` this program meets, the `f64` computation lands
on the same nanosecond value), `Duration::from_secs(30)` on failure. -/
def token_sleep_nanos (result : Except String Nat) : Nat :=
  match result with
  | .ok expires_in => expires_in * 1000000000 * 9 / 10
  | .error _ => 30 * 1000000000

/-! ## RFC 3339 timestamp parsing (`parse_date_time`,
`src/types/applications.rs` lines 63-74)

The source calls `NaiveDateTime::parse_from_str(&string_time, "%+")` and then
`.and_utc()`.  `"%+"` is chrono's `Fixed::RFC3339` item:
`YYYY-MM-DD` + (`T`/`t`/space) + `HH:MM:SS` + optional `.fraction` + a
mandatory offset (`Z`/`z` or `±hh:mm`), with calendar validation (month 1-12,
day valid for the month and leap year, hour < 24, minute < 60, second ≤ 60
with 60 handled as a leap second) and the whole input consumed.
`NaiveDateTime::parse_from_str` builds the naive date-time from the parsed
fields via `Parsed::to_naive_datetime_with_offset(0)`; since `%+` never sets
the `timestamp` field, the parsed timezone *offset is discarded*, and
`.and_utc()` then reads the naive fields as a UTC instant.

The scanner below returns both the instant the code computes (`naive_nanos`,
the fields read as UTC) and the parsed offset (`offset_secs`), so that the
code's behaviour can be compared with the instant the string denotes. -/

/-- The fields chrono's RFC 3339 item extracts from a string. -/
structure Rfc3339Parts where
  naive_nanos : Int
  offset_secs : Int
deriving DecidableEq, Repr

/-- Value of a decimal digit character, `none` for a non-digit. -/
def digitVal (c : Char) : Option Nat :=
  if c.isDigit then some (c.toNat - 48) else none

/-- Read exactly `n` decimal digits into `acc`. -/
def readDigitsAux : Nat → Nat → List Char → Option (Nat × List Char)
  | 0, acc, cs => some (acc, cs)
  | n + 1, acc, c :: cs =>
    match digitVal c with
    | some d => readDigitsAux n (acc * 10 + d) cs
    | none => none
  | _ + 1, _, [] => none

/-- Read exactly `n` decimal digits as a number. -/
def readDigits (n : Nat) (cs : List Char) : Option (Nat × List Char) :=
  readDigitsAux n 0 cs

/-- Consume one expected character. -/
def expectChar (c : Char) : List Char → Option (List Char)
  | c0 :: cs => if c0 = c then some cs else none
  | [] => none

/-- Split off the maximal run of leading digit characters. -/
def leadingDigits : List Char → List Nat × List Char
  | c :: cs =>
    match digitVal c with
    | some d =>
      let (ds, rest) := leadingDigits cs
      (d :: ds, rest)
    | none => ([], c :: cs)
  | [] => ([], [])

/-- chrono `scan::nanosecond`: at least one digit after the decimal point; the
first nine digits give the nanosecond value (right-padded with zeros), any
further digits are consumed and ignored. -/
def readFracNanos (cs : List Char) : Option (Nat × List Char) :=
  match leadingDigits cs with
  | ([], _) => none
  | (ds, rest) =>
    let taken := ds.take 9
    let v := taken.foldl (fun acc d => acc * 10 + d) 0
    some (v * 10 ^ (9 - taken.length), rest)

/-- chrono `scan::timezone_offset` as used by RFC 3339: `Z`/`z`, or a sign,
two hour digits, a colon and two minute digits (minutes below 60); the result
is the offset east of UTC in seconds. -/
def readOffsetSecs (cs : List Char) : Option (Int × List Char) :=
  match cs with
  | 'Z' :: rest => some (0, rest)
  | 'z' :: rest => some (0, rest)
  | '+' :: rest =>
    match readDigits 2 rest with
    | none => none
    | some (h, rest1) =>
      match expectChar ':' rest1 with
      | none => none
      | some rest2 =>
        match readDigits 2 rest2 with
        | none => none
        | some (m, rest3) =>
          if m < 60 then some ((h * 3600 + m * 60 : Nat), rest3) else none
  | '-' :: rest =>
    match readDigits 2 rest with
    | none => none
    | some (h, rest1) =>
      match expectChar ':' rest1 with
      | none => none
      | some rest2 =>
        match readDigits 2 rest2 with
        | none => none
        | some (m, rest3) =>
          if m < 60 then some (-((h * 3600 + m * 60 : Nat) : Int), rest3) else none
  | _ => none

/-- Proleptic-Gregorian leap year, as chrono's calendar defines it. -/
def isLeapYear (y : Nat) : Bool :=
  y % 4 = 0 && (y % 100 ≠ 0 || y % 400 = 0)

/-- Number of days in a month (`NaiveDate::from_ymd_opt` validation). -/
def daysInMonth (y m : Nat) : Nat :=
  if m = 2 then (if isLeapYear y then 29 else 28)
  else if m = 4 || m = 6 || m = 9 || m = 11 then 30
  else 31

/-- Days from the Unix epoch to the civil date `y-m-d` (the standard
days-from-civil computation chrono's calendar agrees with; RFC 3339 years are
four digits, so `y ∈ [0, 9999]`). -/
def days_from_civil (y m d : Nat) : Int :=
  let yAdj : Int := if m ≤ 2 then (y : Int) - 1 else (y : Int)
  let era : Int := Int.fdiv yAdj 400
  let yoe : Int := yAdj - era * 400
  let mp : Int := if m ≤ 2 then (m : Int) + 9 else (m : Int) - 3
  let doy : Int := Int.fdiv (153 * mp + 2) 5 + (d : Int) - 1
  let doe : Int := yoe * 365 + Int.fdiv yoe 4 - Int.fdiv yoe 100 + doy
  era * 146097 + doe - 719468

/-- chrono's RFC 3339 scan (`%+`), producing the naive instant (fields read as
UTC) and the parsed offset.  Mirrors `Parsed::to_naive_date` /
`to_naive_time` validation, including the second-60 leap-second rule, and
requires the whole input to be consumed. -/
def scan_rfc3339 (s : String) : Option Rfc3339Parts :=
  match readDigits 4 s.data with
  | none => none
  | some (y, r1) =>
    match expectChar '-' r1 with
    | none => none
    | some r2 =>
      match readDigits 2 r2 with
      | none => none
      | some (mo, r3) =>
        match expectChar '-' r3 with
        | none => none
        | some r4 =>
          match readDigits 2 r4 with
          | none => none
          | some (d, r5) =>
            match r5 with
            | sep :: r6 =>
              if sep = 'T' || sep = 't' || sep = ' ' then
                match readDigits 2 r6 with
                | none => none
                | some (h, r7) =>
                  match expectChar ':' r7 with
                  | none => none
                  | some r8 =>
                    match readDigits 2 r8 with
                    | none => none
                    | some (mi, r9) =>
                      match expectChar ':' r9 with
                      | none => none
                      | some r10 =>
                        match readDigits 2 r10 with
                        | none => none
                        | some (sec, r11) =>
                          let fracScan :=
                            match r11 with
                            | '.' :: r12 => readFracNanos r12
                            | _ => some (0, r11)
                          match fracScan with
                          | none => none
                          | some (nano, r13) =>
                            match readOffsetSecs r13 with
                            | none => none
                            | some (off, r14) =>
                              if r14 = [] ∧ 1 ≤ mo ∧ mo ≤ 12 ∧ 1 ≤ d ∧
                                  d ≤ daysInMonth y mo ∧ h ≤ 23 ∧ mi ≤ 59 ∧
                                  sec ≤ 60 then
                                let secEff := if sec = 60 then 59 else sec
                                let nanoEff := if sec = 60 then nano + 1000000000 else nano
                                let naive : Int :=
                                  (days_from_civil y mo d * 86400 +
                                    ((h * 3600 + mi * 60 + secEff : Nat) : Int)) * 1000000000 +
                                    (nanoEff : Int)
                                some ⟨naive, off⟩
                              else none
              else none
            | [] => none

/-- The absolute instant an RFC 3339 string denotes: the date-time fields,
shifted by the timezone offset.  This is the spec-side reading
(an `endDateTime` string is "parsed as the absolute timestamp" it denotes),
to be compared with what the code computes. -/
def rfc3339_denoted_instant (p : Rfc3339Parts) : Int :=
  p.naive_nanos - p.offset_secs * 1000000000

/-- `parse_date_time` (`src/types/applications.rs`): an absent value decodes
to `none`; a present string is scanned with `%+` and — per
`NaiveDateTime::parse_from_str` followed by `.and_utc()` — the fields are read
as a UTC instant, the parsed offset discarded; an unscannable string is a
deserialization error carrying the offending value. -/
def parse_date_time (maybe_string_time : Option String) : Except String (Option Int) :=
  match maybe_string_time with
  | none => .ok none
  | some string_time =>
    match scan_rfc3339 string_time with
    | some parts => .ok (some parts.naive_nanos)
    | none => .error ("invalid time " ++ string_time ++ ", expected format ISO 8601 or RFC 3339")

/-! ## Response-body decoding

`response.json::<AzureApplications>()` deserializes the body.  serde's derived
deserializers build each struct field by field and each sequence element by
element, failing fast on the first error; the only custom step is
`parse_date_time` on the `endDateTime` field.  The undecoded body is modelled
by `Raw…` mirrors of the three structs in which `endDateTime` is still the
optional string. -/

/-- A `passwordCredentials` entry before `parse_date_time` has run. -/
structure RawPasswordCredential where
  key_id : String
  display_name : Option String
  end_date_time : Option String
deriving DecidableEq, Repr

/-- An application object before its credentials are decoded. -/
structure RawAzureApplication where
  id : String
  app_id : String
  display_name : Option String
  password_credentials : List RawPasswordCredential
deriving DecidableEq, Repr

/-- One collection page before decoding. -/
structure RawAzureApplications where
  next_link : Option String
  value : List RawAzureApplication
deriving DecidableEq, Repr

/-- Decode one credential: run `parse_date_time` on `endDateTime`. -/
def decode_password_credential (r : RawPasswordCredential) :
    Except String PasswordCredential :=
  match parse_date_time r.end_date_time with
  | .error e => .error e
  | .ok t => .ok ⟨r.key_id, r.display_name, t⟩

/-- Decode a credential sequence, failing on the first bad element. -/
def decode_password_credentials :
    List RawPasswordCredential → Except String (List PasswordCredential)
  | [] => .ok []
  | r :: rs =>
    match decode_password_credential r with
    | .error e => .error e
    | .ok c =>
      match decode_password_credentials rs with
      | .error e => .error e
      | .ok cs => .ok (c :: cs)

/-- Decode one application object. -/
def decode_azure_application (r : RawAzureApplication) :
    Except String AzureApplication :=
  match decode_password_credentials r.password_credentials with
  | .error e => .error e
  | .ok cs => .ok ⟨r.id, r.app_id, r.display_name, cs⟩

/-- Decode the `value` array, failing on the first bad element. -/
def decode_azure_application_list :
    List RawAzureApplication → Except String (List AzureApplication)
  | [] => .ok []
  | r :: rs =>
    match decode_azure_application r with
    | .error e => .error e
    | .ok a =>
      match decode_azure_application_list rs with
      | .error e => .error e
      | .ok as_ => .ok (a :: as_)

/-- Decode one page body (`json::<AzureApplications>()`). -/
def decode_azure_applications (r : RawAzureApplications) :
    Except String AzureApplications :=
  match decode_azure_application_list r.value with
  | .error e => .error e
  | .ok v => .ok ⟨r.next_link, v⟩

/-! ## The paginated fetch
(`azure_applications_updater::inner`, `src/tasks/applications_updater.rs`
lines 47-59)

Each call of `get_applications` is one oracle entry: the list `server` holds,
in request order, what `send().await?.json::<AzureApplications>().await`
returns for each successive request (an `ε` error for a transport failure,
non-success status or decode failure).  The fetch is the Rust code

```
let mut response = get_applications(initial_url).await?;
while let Some(next_link) = response.next_link {
    let mut next_response = get_applications(next_link).await?;
    response.next_link = next_response.next_link;
    response.value.append(&mut next_response.value);
}
```

and its result is paired with the number of requests issued (oracle entries
consumed).  An exhausted oracle stands for a request that never gets a
response and is reported as a `none` result. -/

/-- The `while let Some(next_link)` accumulation loop, starting from the
already-received `response`. -/
def follow_next_links {ε : Type} (response : AzureApplications)
    (server : List (Except ε AzureApplications)) :
    Option (Except ε AzureApplications) × Nat :=
  match response.next_link with
  | none => (some (.ok response), 0)
  | some _ =>
    match server with
    | [] => (none, 0)
    | .error e :: _ => (some (.error e), 1)
    | .ok next_response :: rest =>
      let merged : AzureApplications :=
        ⟨next_response.next_link, response.value ++ next_response.value⟩
      let rn := follow_next_links merged rest
      (rn.1, rn.2 + 1)

/-- The whole fetch: the initial request (the first oracle entry) followed by
the continuation loop.  Returns the accumulated `AzureApplications` (or the
aborting page's error) and the number of requests issued. -/
def fetch_all {ε : Type} (server : List (Except ε AzureApplications)) :
    Option (Except ε AzureApplications) × Nat :=
  match server with
  | [] => (none, 0)
  | .error e :: _ => (some (.error e), 1)
  | .ok response :: rest =>
    let rn := follow_next_links response rest
    (rn.1, rn.2 + 1)

/-! ## The applications cache
(`global_state.rs`: `applications: RwLock<HashMap<String, AzureApplication>>`;
`applications_updater.rs` lines 61-65: `clear` then `extend`)

The `HashMap` is modelled as an insert-ordered association list with unique
keys; `extend` inserts each pair in turn, and inserting an existing key
replaces that key's value in place (`HashMap::insert` semantics). -/

/-- The cache contents: association list from application id to application. -/
abbrev AppCache := List (String × AzureApplication)

/-- `HashMap::insert` for one key-value pair: replace the value of an existing
key, otherwise add the binding. -/
def cache_insert (m : AppCache) (kv : String × AzureApplication) : AppCache :=
  if m.any (fun p => p.1 = kv.1) then
    m.map (fun p => if p.1 = kv.1 then kv else p)
  else
    m ++ [kv]

/-- `HashMap::extend`: insert each pair in iteration order. -/
def cache_extend (m : AppCache) (kvs : List (String × AzureApplication)) : AppCache :=
  kvs.foldl cache_insert m

/-- `HashMap::get` on the model. -/
def cache_get (m : AppCache) (k : String) : Option AzureApplication :=
  (m.find? (fun p => p.1 = k)).map (fun p => p.2)

/-- The keys currently in the cache. -/
def cache_keys (m : AppCache) : List String :=
  m.map (fun p => p.1)

/-- The tail of `azure_applications_updater::inner` (lines 61-68): on fetch
success, map each application to `(id, application)`, take the write lock,
`clear()` the cache and `extend` it with the new pairs; on fetch error the `?`
has already returned, leaving the cache untouched.  Returns `inner`'s
`Result` and the cache contents after the cycle. -/
def applications_updater_inner {ε : Type} (server : List (Except ε AzureApplications))
    (applications : AppCache) : Option (Except ε Unit) × AppCache :=
  match fetch_all server with
  | (none, _) => (none, applications)
  | (some (.error e), _) => (some (.error e), applications)
  | (some (.ok response), _) =>
    let parsed_applications := response.value.map (fun application => (application.id, application))
    (some (.ok ()), cache_extend ([] : AppCache) parsed_applications)

/-! ## Token gating (`azure_applications_updater`, lines 27-32, together with
the token updater's write)

The two spawned tasks share the `azure_api_token` cell, initially the empty
(default) string.  The token task's cycles either succeed — overwriting the
cell with the response's `access_token` — or fail, leaving it alone.  The
applications task starts in a waiting phase: it re-reads the cell and sleeps
five seconds while the cell `is_empty()`; only after observing a non-empty
value does it leave the waiting phase and start issuing fetches.  The
interleaving of the two tasks is modelled as a labelled transition system;
`fetch` is the event of issuing an authenticated request to the collection
endpoint. -/

/-- The shared state the two tasks interleave on. -/
structure SystemState where
  azure_api_token : String
  updater_waiting : Bool
deriving DecidableEq, Repr

/-- Both cells are `RwLock::default()`: empty token, updater not yet past its
startup wait. -/
def initial_system_state : SystemState := ⟨"", true⟩

/-- Observable events of the two loops. -/
inductive SystemEvent where
  | renew_success (access_token : String)
  | renew_failure
  | wait_poll
  | fetch
deriving DecidableEq, Repr

/-- One interleaved step.  `renew_success` is a token cycle whose `inner`
succeeded (the cell is overwritten with the response's `access_token`);
`renew_failure` one whose `inner` failed (cell untouched); `wait_poll` is one
evaluation of the `while ….is_empty()` condition by the applications task,
which sleeps if the token is empty and otherwise falls through to the fetch
phase; `fetch` is a `get_applications` request, possible only after the wait
has fallen through. -/
inductive SystemStep : SystemState → SystemEvent → SystemState → Prop where
  | renew_success (s : SystemState) (t : String) :
      SystemStep s (.renew_success t) ⟨t, s.updater_waiting⟩
  | renew_failure (s : SystemState) :
      SystemStep s .renew_failure s
  | wait_poll_sleep (s : SystemState) :
      s.updater_waiting = true → s.azure_api_token = "" →
      SystemStep s .wait_poll s
  | wait_poll_pass (s : SystemState) :
      s.updater_waiting = true → s.azure_api_token ≠ "" →
      SystemStep s .wait_poll ⟨s.azure_api_token, false⟩
  | fetch (s : SystemState) :
      s.updater_waiting = false →
      SystemStep s .fetch s

/-- Finite executions, recording the trace of events. -/
inductive SystemReaches : SystemState → List SystemEvent → SystemState → Prop where
  | refl (s : SystemState) : SystemReaches s [] s
  | step (s₁ : SystemState) (tr : List SystemEvent) (s₂ : SystemState)
      (e : SystemEvent) (s₃ : SystemState) :
      SystemReaches s₁ tr s₂ → SystemStep s₂ e s₃ → SystemReaches s₁ (tr ++ [e]) s₃

/-- The result of one `get_applications` call at the transport level: the raw
oracle entry (`send()` outcome) followed by the body decode
(`json::<AzureApplications>()`); a transport failure and a decode failure are
the two error layers. -/
def get_applications_result {τ : Type} (r : Except τ RawAzureApplications) :
    Except (τ ⊕ String) AzureApplications :=
  match r with
  | .error t => .error (.inl t)
  | .ok raw =>
    match decode_azure_applications raw with
    | .error d => .error (.inr d)
    | .ok page => .ok page

/-- The fetch observed at the transport level: every raw response passes
through body decoding before the pagination loop consumes it. -/
def fetch_all_raw {τ : Type} (raw_server : List (Except τ RawAzureApplications)) :
    Option (Except (τ ⊕ String) AzureApplications) × Nat :=
  fetch_all (raw_server.map get_applications_result)

/-- Sample application record for concrete executions. -/
def appA : AzureApplication := ⟨"id-a", "app-a", none, []⟩

/-- A second sample application record. -/
def appB : AzureApplication := ⟨"id-b", "app-b", some ("B"), []⟩

/-! ## Helper lemmas -/


/-- Truncating division of an integer at most `-b` by positive `b` is
strictly negative. -/
theorem tdiv_neg_of_le_neg {a b : Int} (hb : 0 < b) (ha : a ≤ -b) :
    a.tdiv b < 0 := by
  have hna : 0 ≤ -a := by omega
  have h1 : a.tdiv b = -((-a).tdiv b) := by
    rw [← Int.neg_tdiv, neg_neg]
  have h2 : (-a).tdiv b = (-a) / b := Int.tdiv_eq_ediv hna (le_of_lt hb)
  have h3 : 1 ≤ (-a) / b := by
    rw [Int.le_ediv_iff_mul_le hb]
    omega
  omega

/-! ## C5, C6, C7 -/

/-- C5: the token scheduler's next delay is a function of the renewal
outcome: on success it is 90% of the reported validity duration
(`expires_in = 1000` seconds gives 900 seconds), and on failure it is the
fixed 30-second interval. -/
theorem token_scheduler_delay_policy :
    (∀ expires_in : Nat,
      token_sleep_nanos (.ok expires_in) = expires_in * 900000000) ∧
    token_sleep_nanos (.ok 1000) = 900 * 1000000000 ∧
    (∀ e : String, token_sleep_nanos (.error e) = 30 * 1000000000) := by
  refine ⟨fun expires_in => ?_, rfl, fun e => rfl⟩
  show expires_in * 1000000000 * 9 / 10 = expires_in * 900000000
  omega

/-- C6: a successful renewal overwrites the shared token wholesale with the
returned `access_token` and reports `expires_in`; a failed renewal leaves the
previous token untouched and reports the error. -/
theorem token_renewal_all_or_nothing :
    (∀ (token : String) (r : AuthToken),
      token_updater_inner token (.ok r) = (.ok r.expires_in, r.access_token)) ∧
    (∀ (token : String) (e : String),
      token_updater_inner token (.error e) = (.error e, token)) :=
  ⟨fun _ _ => rfl, fun _ _ => rfl⟩

/-- C7 counterexample: a credential whose expiry is the epoch instant 0,
observed half a second later (`now` = 500000000 ns), is already expired —
the expiry is strictly in the past — yet `remaining_seconds` is 0, which is
not negative: a sub-second-past expiry is truncated to zero, so the result is
not the signed value `expiry - now` and is not negative for every past
expiry. -/
theorem remaining_seconds_subsecond_counterexample :
    remaining_seconds ⟨"k", none, some 0⟩ 500000000 = .fin 0 ∧
    (0 : Int) < 500000000 ∧ ¬ (0 : Int) < 0 := by
  refine ⟨?_, by decide, by decide⟩
  rfl

/-- C7 (amended): `remaining_seconds` returns positive infinity when the
credential has no expiry timestamp; otherwise it returns the whole-second
truncation toward zero of `expiry - now` as a signed value — strictly
negative (never clamped to zero) whenever the expiry is at least one full
second in the past, while an expiry less than one second in the past yields
exactly 0. -/
theorem remaining_seconds_spec :
    (∀ (c : PasswordCredential) (now : Int), c.end_date_time = none →
      remaining_seconds c now = .inf) ∧
    (∀ (c : PasswordCredential) (now e : Int), c.end_date_time = some e →
      remaining_seconds c now = .fin ((e - now).tdiv 1000000000)) ∧
    (∀ (c : PasswordCredential) (now e : Int), c.end_date_time = some e →
      e + 1000000000 ≤ now →
      ∃ z : Int, remaining_seconds c now = .fin z ∧ z < 0) ∧
    (∀ (c : PasswordCredential) (now e : Int), c.end_date_time = some e →
      e < now → now < e + 1000000000 →
      remaining_seconds c now = .fin 0) := by
  refine ⟨fun c now h => ?_, fun c now e h => ?_, fun c now e h hle => ?_,
    fun c now e h h1 h2 => ?_⟩
  · simp [remaining_seconds, h]
  · simp [remaining_seconds, h, num_seconds]
  · refine ⟨(e - now).tdiv 1000000000, by simp [remaining_seconds, h, num_seconds], ?_⟩
    exact tdiv_neg_of_le_neg (by omega) (by omega)
  · simp only [remaining_seconds, h, num_seconds]
    congr 1
    have h3 : e - now = -(now - e) := by omega
    rw [h3, Int.neg_tdiv, Int.tdiv_eq_zero_of_lt (by omega) (by omega), neg_zero]

/-- C7 witness: the amended statement evaluated at concrete credentials — no
expiry gives infinity; expiry 0 observed at 2.5 s gives the truncation -2;
expiry one-and-a-half seconds past gives a strictly negative value; expiry
half a second past gives 0. -/
theorem remaining_seconds_spec_witness :
    remaining_seconds ⟨"k", none, none⟩ 7 = .inf ∧
    remaining_seconds ⟨"k", none, some 0⟩ 2500000000 = .fin ((0 - 2500000000 : Int).tdiv 1000000000) ∧
    (∃ z : Int, remaining_seconds ⟨"k", none, some 0⟩ 1500000000 = .fin z ∧ z < 0) ∧
    remaining_seconds ⟨"k", none, some 0⟩ 500000000 = .fin 0 :=
  ⟨remaining_seconds_spec.1 ⟨"k", none, none⟩ 7 rfl,
   remaining_seconds_spec.2.1 ⟨"k", none, some 0⟩ 2500000000 0 rfl,
   remaining_seconds_spec.2.2.1 ⟨"k", none, some 0⟩ 1500000000 0 rfl (by omega),
   remaining_seconds_spec.2.2.2 ⟨"k", none, some 0⟩ 500000000 0 rfl (by omega) (by omega)⟩

/-! ## C4 -/

/-- Gating invariant of the interleaved system: a non-empty token cell was
written by some successful renewal in the trace, and the updater has left its
startup wait only if some successful renewal of a non-empty token precedes. -/
theorem token_gating_invariant (s : SystemState) (tr : List SystemEvent)
    (h : SystemReaches initial_system_state tr s) :
    (s.azure_api_token ≠ "" →
      SystemEvent.renew_success s.azure_api_token ∈ tr) ∧
    (s.updater_waiting = false →
      ∃ t, t ≠ "" ∧ SystemEvent.renew_success t ∈ tr) := by
  induction h with
  | refl => simp [initial_system_state]
  | step tr s₂ e s₃ hr hs ih =>
    cases hs with
    | renew_success t =>
      refine ⟨fun ht => ?_, fun hw => ?_⟩
      · simp
      · obtain ⟨t', ht', hm⟩ := ih.2 hw
        exact ⟨t', ht', by simp [hm]⟩
    | renew_failure =>
      refine ⟨fun ht => ?_, fun hw => ?_⟩
      · exact List.mem_append_left _ (ih.1 ht)
      · obtain ⟨t', ht', hm⟩ := ih.2 hw
        exact ⟨t', ht', by simp [hm]⟩
    | wait_poll_sleep hw hempty =>
      refine ⟨fun ht => ?_, fun hw2 => ?_⟩
      · exact List.mem_append_left _ (ih.1 ht)
      · obtain ⟨t', ht', hm⟩ := ih.2 hw2
        exact ⟨t', ht', by simp [hm]⟩
    | wait_poll_pass hw hne =>
      refine ⟨fun ht => ?_, fun hw2 => ?_⟩
      · exact List.mem_append_left _ (ih.1 hne)
      · exact ⟨s₂.azure_api_token, hne, by exact List.mem_append_left _ (ih.1 hne)⟩
    | fetch hw =>
      refine ⟨fun ht => ?_, fun hw2 => ?_⟩
      · exact List.mem_append_left _ (ih.1 ht)
      · obtain ⟨t', ht', hm⟩ := ih.2 hw2
        exact ⟨t', ht', by simp [hm]⟩

/-- C4: in every execution from process start, whenever the collection
updater issues a fetch, the trace so far contains a successful token renewal
that stored a non-empty token — the updater's polling wait (5-second sleeps
while the shared token cell is empty) never lets a fetch through before the
token manager's first successful renewal. -/
theorem fetch_gated_on_token (s s' : SystemState) (tr : List SystemEvent)
    (hreach : SystemReaches initial_system_state tr s)
    (hstep : SystemStep s .fetch s') :
    ∃ t, t ≠ "" ∧ SystemEvent.renew_success t ∈ tr := by
  cases hstep with
  | fetch hw => exact (token_gating_invariant s tr hreach).2 hw

/-- C4 witness: the concrete execution renew-succeed, pass the wait, fetch —
the fetch is preceded by the successful renewal. -/
theorem fetch_gated_on_token_witness :
    ∃ t, t ≠ "" ∧ SystemEvent.renew_success t ∈
      [SystemEvent.renew_success ("tok"), SystemEvent.wait_poll] :=
  fetch_gated_on_token ⟨"tok", false⟩ ⟨"tok", false⟩ _
    (SystemReaches.step _ _ _ _ _
      (SystemReaches.step _ _ _ _ _ (SystemReaches.refl _)
        (SystemStep.renew_success _ ("tok")))
      (SystemStep.wait_poll_pass _ rfl (by simp)))
    (SystemStep.fetch _ rfl)

/-! ## C1 -/

/-- A response without a continuation link ends the loop at once: no further
oracle entry is consumed, whatever the server still holds. -/
theorem follow_next_links_done {ε : Type} (response : AzureApplications)
    (server : List (Except ε AzureApplications)) (h : response.next_link = none) :
    follow_next_links response server = (some (.ok response), 0) := by
  cases server with
  | nil => simp [follow_next_links, h]
  | cons hd tl => cases hd <;> simp [follow_next_links, h]

/-- With a continuation link present, a failed next request aborts the loop
with that error after one more request. -/
theorem follow_next_links_abort {ε : Type} (response : AzureApplications)
    (e : ε) (tail : List (Except ε AzureApplications)) (l : String)
    (h : response.next_link = some l) :
    follow_next_links response (.error e :: tail) = (some (.error e), 1) := by
  simp [follow_next_links, h]

/-- With a continuation link present, a successful next request merges the
new page and continues. -/
theorem follow_next_links_step {ε : Type} (response next_response : AzureApplications)
    (rest : List (Except ε AzureApplications)) (l : String)
    (h : response.next_link = some l) :
    follow_next_links response (.ok next_response :: rest) =
      ((follow_next_links
          (⟨next_response.next_link, response.value ++ next_response.value⟩ :
            AzureApplications) rest).1,
        (follow_next_links
          (⟨next_response.next_link, response.value ++ next_response.value⟩ :
            AzureApplications) rest).2 + 1) := by
  simp [follow_next_links, h]

/-- Accumulation lemma for the continuation loop: from a response still
carrying a link, a run of linked pages ending in a page without a link is
appended in order, consuming exactly one oracle entry per page and nothing
beyond. -/
theorem follow_next_links_run {ε : Type} (front : List AzureApplications)
    (response last : AzureApplications) (extra : List (Except ε AzureApplications))
    (hresp : response.next_link.isSome)
    (hfront : ∀ p ∈ front, p.next_link.isSome)
    (hlast : last.next_link = none) :
    follow_next_links response (front.map .ok ++ .ok last :: extra) =
      (some (.ok ⟨none, response.value ++
          ((front.map AzureApplications.value).flatten ++ last.value)⟩),
        front.length + 1) := by
  induction front generalizing response with
  | nil =>
    obtain ⟨l, hl⟩ := Option.isSome_iff_exists.mp hresp
    rw [List.map_nil, List.nil_append, follow_next_links_step response last extra l hl]
    rw [show (⟨last.next_link, response.value ++ last.value⟩ : AzureApplications) =
        ⟨none, response.value ++ last.value⟩ from by rw [hlast]]
    rw [follow_next_links_done (ε := ε) ⟨none, response.value ++ last.value⟩ extra rfl]
    simp
  | cons p front' ih =>
    obtain ⟨l, hl⟩ := Option.isSome_iff_exists.mp hresp
    have hp : p.next_link.isSome := hfront p (List.mem_cons_self p front')
    have ih2 := ih ⟨p.next_link, response.value ++ p.value⟩ hp
      (fun q hq => hfront q (List.mem_cons_of_mem p hq))
    rw [List.map_cons, List.cons_append,
      follow_next_links_step response p
        (List.map Except.ok front' ++ Except.ok last :: extra) l hl, ih2]
    simp [List.append_assoc]

/-- C1: pagination completeness.  For a server answering with `N ≥ 1` pages
(`front ++ [last]`), every page but the last carrying a continuation link and
the last carrying none, the fetch returns the in-order concatenation of all
pages' resources and issues exactly `N` requests — whatever further responses
(`extra`) the server would have given are never requested. -/
theorem pagination_completeness {ε : Type} (front : List AzureApplications)
    (last : AzureApplications) (extra : List (Except ε AzureApplications))
    (hfront : ∀ p ∈ front, p.next_link.isSome)
    (hlast : last.next_link = none) :
    fetch_all ((front ++ [last]).map .ok ++ extra) =
      (some (.ok ⟨none, ((front ++ [last]).map AzureApplications.value).flatten⟩),
        front.length + 1) := by
  cases front with
  | nil =>
    rw [List.nil_append]
    simp only [List.map_cons, List.map_nil, List.cons_append, List.nil_append]
    rw [fetch_all, follow_next_links_done (ε := ε) last extra hlast]
    obtain ⟨nl, v⟩ := last
    simp only [Option.some.injEq] at hlast
    subst hlast
    simp
  | cons p front' =>
    have hp : p.next_link.isSome := hfront p (List.mem_cons_self p front')
    simp only [List.cons_append, List.map_cons]
    rw [fetch_all]
    have harr : (front' ++ [last]).map (Except.ok (ε := ε)) ++ extra =
        front'.map .ok ++ .ok last :: extra := by
      simp
    rw [harr, follow_next_links_run front' p last extra hp
      (fun q hq => hfront q (List.mem_cons_of_mem p hq)) hlast]
    simp [List.append_assoc]

/-- C1 witness: a two-page run — the first page links on, the second does
not — returns both pages' resources in order in two requests, ignoring the
extra oracle entry. -/
theorem pagination_completeness_witness :
    fetch_all (ε := String)
      [.ok ⟨some ("page2"), [appA]⟩, .ok ⟨none, [appB]⟩, .error ("unused")] =
      (some (.ok ⟨none, [appA, appB]⟩), 2) := by
  have h := pagination_completeness (ε := String) [⟨some ("page2"), [appA]⟩]
    ⟨none, [appB]⟩ [.error ("unused")] (by simp) rfl
  simpa using h

/-! ## C2 -/

/-- Abort lemma for the loop: after any run of linked pages, a failing
request aborts with that request's error. -/
theorem follow_next_links_run_abort {ε : Type} (front : List AzureApplications)
    (response : AzureApplications) (e : ε) (rest : List (Except ε AzureApplications))
    (hresp : response.next_link.isSome)
    (hfront : ∀ p ∈ front, p.next_link.isSome) :
    follow_next_links response (front.map .ok ++ .error e :: rest) =
      (some (.error e), front.length + 1) := by
  induction front generalizing response with
  | nil =>
    obtain ⟨l, hl⟩ := Option.isSome_iff_exists.mp hresp
    rw [List.map_nil, List.nil_append, follow_next_links_abort response e rest l hl]
    simp
  | cons p front' ih =>
    obtain ⟨l, hl⟩ := Option.isSome_iff_exists.mp hresp
    have hp : p.next_link.isSome := hfront p (List.mem_cons_self p front')
    have ih2 := ih ⟨p.next_link, response.value ++ p.value⟩ hp
      (fun q hq => hfront q (List.mem_cons_of_mem p hq))
    rw [List.map_cons, List.cons_append,
      follow_next_links_step response p
        (List.map Except.ok front' ++ Except.error e :: rest) l hl, ih2]
    simp

/-- The whole fetch aborts with the failing page's error, whether the failure
hits the initial request or a continuation request. -/
theorem fetch_all_abort {ε : Type} (front : List AzureApplications) (e : ε)
    (rest : List (Except ε AzureApplications))
    (hfront : ∀ p ∈ front, p.next_link.isSome) :
    fetch_all (front.map .ok ++ .error e :: rest) =
      (some (.error e), front.length + 1) := by
  cases front with
  | nil => simp [fetch_all]
  | cons p front' =>
    have hp : p.next_link.isSome := hfront p (List.mem_cons_self p front')
    rw [List.map_cons, List.cons_append, fetch_all,
      follow_next_links_run_abort front' p e rest hp
        (fun q hq => hfront q (List.mem_cons_of_mem p hq))]
    simp

/-- C2: a failing page aborts the whole refresh cycle with that page's error
and leaves the cache exactly as it was — the pages already fetched in the
cycle are never written into it. -/
theorem refresh_failure_preserves_cache {ε : Type} (front : List AzureApplications)
    (e : ε) (rest : List (Except ε AzureApplications)) (applications : AppCache)
    (hfront : ∀ p ∈ front, p.next_link.isSome) :
    applications_updater_inner (front.map .ok ++ .error e :: rest) applications =
      (some (.error e), applications) := by
  simp [applications_updater_inner, fetch_all_abort front e rest hfront]

/-- C2 witness: first page succeeds and links on, second request fails — the
cycle reports that error and the previously cached entry is untouched. -/
theorem refresh_failure_preserves_cache_witness :
    applications_updater_inner (ε := String)
      [.ok ⟨some ("page2"), [appA]⟩, .error ("boom")] [("cached", appB)] =
      (some (.error ("boom")), [("cached", appB)]) := by
  have h := refresh_failure_preserves_cache (ε := String) [⟨some ("page2"), [appA]⟩]
    ("boom") [] [("cached", appB)] (by simp)
  simpa using h

/-! ## C3 -/

/-- C3: a successful refresh replaces the cache wholesale: the result is
computed from the freshly fetched sequence alone (clear, then extend from
empty), independent of the prior contents; in particular a fetch of zero
resources with no continuation link leaves the cache empty. -/
theorem refresh_success_replaces_cache {ε : Type}
    (server : List (Except ε AzureApplications)) (response : AzureApplications)
    (n : Nat) (applications : AppCache)
    (h : fetch_all server = (some (.ok response), n)) :
    applications_updater_inner server applications =
      (some (.ok ()), cache_extend []
        (response.value.map (fun application => (application.id, application)))) ∧
    applications_updater_inner [(.ok ⟨none, []⟩ : Except ε AzureApplications)] applications =
      (some (.ok ()), []) := by
  constructor
  · simp [applications_updater_inner, h]
  · simp [applications_updater_inner, fetch_all, follow_next_links, cache_extend]

/-- C3 witness: a one-page fetch rebuilds the cache from the new resources
only, and an empty page empties a non-empty cache. -/
theorem refresh_success_replaces_cache_witness :
    applications_updater_inner (ε := String) [.ok ⟨none, [appA]⟩] [("cached", appB)] =
      (some (.ok ()), cache_extend []
        (([appA] : List AzureApplication).map (fun application => (application.id, application)))) ∧
    applications_updater_inner (ε := String) [.ok ⟨none, []⟩] [("cached", appB)] =
      (some (.ok ()), []) :=
  refresh_success_replaces_cache [.ok ⟨none, [appA]⟩] ⟨none, [appA]⟩ 1
    [("cached", appB)] (by simp [fetch_all, follow_next_links])

/-! ## C10 -/

theorem cache_mem_iff_any (m : AppCache) (k : String) :
    (m.any (fun p => p.1 = k)) = true ↔ k ∈ cache_keys m := by
  rw [List.any_eq_true]
  unfold cache_keys
  constructor
  · rintro ⟨p, hp, hpk⟩
    exact List.mem_map.mpr ⟨p, hp, by simpa using hpk⟩
  · intro h
    obtain ⟨p, hp, hpk⟩ := List.mem_map.mp h
    exact ⟨p, hp, by simpa using hpk⟩

theorem cache_get_insert (m : AppCache) (kv : String × AzureApplication) (k : String) :
    cache_get (cache_insert m kv) k =
      if k = kv.1 then some kv.2 else cache_get m k := by
  unfold cache_insert
  by_cases hmem : kv.1 ∈ cache_keys m
  · rw [if_pos ((cache_mem_iff_any m kv.1).mpr hmem)]
    unfold cache_get
    rw [List.find?_map]
    by_cases hk : k = kv.1
    · have hfeq : ((fun p : String × AzureApplication => decide (p.1 = k)) ∘
          fun p => if p.1 = kv.1 then kv else p) =
          fun p : String × AzureApplication => decide (p.1 = kv.1) := by
        funext p
        by_cases hp : p.1 = kv.1 <;> simp [hp, hk]
      rw [hfeq]
      obtain ⟨p0, hp0mem, hp0key⟩ := List.mem_map.mp hmem
      have hsome : (m.find? (fun p => decide (p.1 = kv.1))).isSome = true :=
        List.find?_isSome.mpr ⟨p0, hp0mem, by simpa using hp0key⟩
      obtain ⟨p1, hp1⟩ := Option.isSome_iff_exists.mp hsome
      have hp1key : p1.1 = kv.1 := by simpa using List.find?_some hp1
      rw [hp1, if_pos hk]
      simp [hp1key]
    · have hfeq : ((fun p : String × AzureApplication => decide (p.1 = k)) ∘
          fun p => if p.1 = kv.1 then kv else p) =
          fun p : String × AzureApplication => decide (p.1 = k) := by
        have hk2 : kv.1 ≠ k := fun h => hk h.symm
        funext p
        by_cases hp : p.1 = kv.1 <;> simp [hp, hk2]
      rw [hfeq, if_neg hk]
      cases hfind : m.find? (fun p => decide (p.1 = k)) with
      | none => simp
      | some p1 =>
        have hp1key : p1.1 = k := by simpa using List.find?_some hfind
        have hne : p1.1 ≠ kv.1 := by rw [hp1key]; exact hk
        simp [hne]
  · rw [if_neg (fun h => hmem ((cache_mem_iff_any m kv.1).mp h))]
    unfold cache_get
    rw [List.find?_append]
    by_cases hk : k = kv.1
    · have hnone : m.find? (fun p => decide (p.1 = k)) = none := by
        rw [List.find?_eq_none]
        intro p hp
        simp only [decide_eq_true_eq]
        intro hpk
        exact hmem (List.mem_map.mpr ⟨p, hp, by rw [hpk, ← hk]⟩)
      rw [hnone, if_pos hk]
      simp [List.find?, hk.symm]
    · have hsing : List.find? (fun p => decide (p.1 = k)) [kv] = none := by
        have hk2 : kv.1 ≠ k := fun h => hk h.symm
        simp [List.find?, hk2]
      rw [hsing, Option.or_none, if_neg hk]

theorem cache_keys_insert (m : AppCache) (kv : String × AzureApplication) :
    cache_keys (cache_insert m kv) =
      if kv.1 ∈ cache_keys m then cache_keys m else cache_keys m ++ [kv.1] := by
  unfold cache_insert
  by_cases hmem : kv.1 ∈ cache_keys m
  · rw [if_pos ((cache_mem_iff_any m kv.1).mpr hmem), if_pos hmem]
    unfold cache_keys
    rw [List.map_map]
    apply List.map_congr_left
    intro p hp
    by_cases hpk : p.1 = kv.1 <;> simp [hpk]
  · rw [if_neg (fun h => hmem ((cache_mem_iff_any m kv.1).mp h)), if_neg hmem]
    unfold cache_keys
    simp

theorem cache_nodup_insert (m : AppCache) (kv : String × AzureApplication)
    (h : (cache_keys m).Nodup) : (cache_keys (cache_insert m kv)).Nodup := by
  rw [cache_keys_insert]
  by_cases hmem : kv.1 ∈ cache_keys m
  · rwa [if_pos hmem]
  · rw [if_neg hmem, List.nodup_append]
    refine ⟨h, List.nodup_singleton kv.1, ?_⟩
    intro a ha hb
    rw [List.mem_singleton] at hb
    subst hb
    exact hmem ha

theorem cache_keys_insert_toFinset (m : AppCache) (kv : String × AzureApplication) :
    (cache_keys (cache_insert m kv)).toFinset = insert kv.1 (cache_keys m).toFinset := by
  rw [cache_keys_insert]
  by_cases hmem : kv.1 ∈ cache_keys m
  · rw [if_pos hmem, Finset.insert_eq_self.mpr (List.mem_toFinset.mpr hmem)]
  · rw [if_neg hmem, List.toFinset_append]
    ext a
    simp [or_comm]

theorem cache_get_extend (m : AppCache) (ps : List (String × AzureApplication)) (k : String) :
    cache_get (cache_extend m ps) k =
      ((ps.reverse.find? (fun p => p.1 = k)).map (fun p => p.2)).or (cache_get m k) := by
  induction ps generalizing m with
  | nil => simp [cache_extend]
  | cons q ps' ih =>
    unfold cache_extend at ih ⊢
    rw [List.foldl_cons, ih (cache_insert m q), cache_get_insert]
    rw [List.reverse_cons, List.find?_append]
    cases hfind : ps'.reverse.find? (fun p => decide (p.1 = k)) with
    | some p1 => simp [hfind]
    | none =>
      simp only [hfind, Option.none_or, Option.map_none]
      by_cases hk : k = q.1
      · have hq : decide (q.1 = k) = true := by simp [hk]
        simp [List.find?, hq, if_pos hk, hk]
      · have hq : decide (q.1 = k) = false := by
          simp only [decide_eq_false_iff_not]
          exact fun h => hk h.symm
        simp [List.find?, hq, if_neg hk]

theorem cache_keys_extend_toFinset (m : AppCache) (ps : List (String × AzureApplication)) :
    (cache_keys (cache_extend m ps)).toFinset =
      (cache_keys m).toFinset ∪ (ps.map Prod.fst).toFinset := by
  induction ps generalizing m with
  | nil => simp [cache_extend]
  | cons q ps' ih =>
    unfold cache_extend at ih ⊢
    rw [List.foldl_cons, ih (cache_insert m q), cache_keys_insert_toFinset]
    ext a
    simp only [Finset.mem_union, Finset.mem_insert, List.mem_toFinset, List.map_cons,
      List.mem_cons]
    tauto

theorem cache_nodup_extend (m : AppCache) (ps : List (String × AzureApplication))
    (h : (cache_keys m).Nodup) : (cache_keys (cache_extend m ps)).Nodup := by
  induction ps generalizing m with
  | nil => simpa [cache_extend] using h
  | cons q ps' ih =>
    unfold cache_extend at ih ⊢
    rw [List.foldl_cons]
    exact ih (cache_insert m q) (cache_nodup_insert m q h)

theorem find?_eq_head?_filter {α : Type} (p : α → Bool) (l : List α) :
    l.find? p = (l.filter p).head? := by
  induction l with
  | nil => rfl
  | cons a l ih =>
    by_cases h : p a = true
    · rw [List.find?_cons_of_pos _ h, List.filter_cons_of_pos h, List.head?_cons]
    · rw [List.find?_cons_of_neg _ h, List.filter_cons_of_neg h, ih]

/-- C10: the rebuilt cache holds exactly one entry per distinct resource
identifier: looking an id up yields the last resource with that id in
accumulated page order, and the cache size is the number of distinct
identifiers (so duplicated ids collapse); the key list is duplicate-free. -/
theorem cache_one_entry_per_id (resources : List AzureApplication) (id : String) :
    cache_get (cache_extend []
        (resources.map (fun application => (application.id, application)))) id =
      (resources.filter (fun application => application.id = id)).getLast? ∧
    (cache_extend []
        (resources.map (fun application => (application.id, application)))).length =
      (resources.map AzureApplication.id).toFinset.card ∧
    (cache_keys (cache_extend []
        (resources.map (fun application => (application.id, application))))).Nodup := by
  have hnil : (cache_keys ([] : AppCache)).Nodup := by simp [cache_keys]
  refine ⟨?_, ?_, cache_nodup_extend [] _ hnil⟩
  · rw [cache_get_extend]
    have hget_nil : cache_get [] id = none := rfl
    rw [hget_nil, Option.or_none, ← List.map_reverse, List.find?_map]
    have hcomp : ((fun p : String × AzureApplication => decide (p.1 = id)) ∘
        fun application => (application.id, application)) =
        fun application => decide (application.id = id) := rfl
    rw [hcomp, Option.map_map]
    have hsnd : ((fun p : String × AzureApplication => p.2) ∘
        fun application => (application.id, application)) =
        fun application => application := rfl
    rw [hsnd, Option.map_id', find?_eq_head?_filter, List.filter_reverse,
      List.head?_reverse]
  · have hnodup := cache_nodup_extend []
      (resources.map (fun application => (application.id, application))) hnil
    have h1 : (cache_extend []
        (resources.map (fun application => (application.id, application)))).length =
        (cache_keys (cache_extend []
          (resources.map (fun application => (application.id, application))))).length := by
      unfold cache_keys
      rw [List.length_map]
    rw [h1, ← List.toFinset_card_of_nodup hnodup, cache_keys_extend_toFinset]
    congr 1
    ext a
    simp [cache_keys, List.map_map, Function.comp]


/-! ## C8 -/

/-- A credential whose present `endDateTime` does not scan makes the
credential-sequence decode fail. -/
theorem decode_password_credentials_error (creds : List RawPasswordCredential)
    (c : RawPasswordCredential) (s : String)
    (hc : c ∈ creds) (hs : c.end_date_time = some s)
    (hbad : scan_rfc3339 s = none) :
    ∃ d, decode_password_credentials creds = .error d := by
  induction creds with
  | nil => cases hc
  | cons r rs ih =>
    cases hc with
    | head =>
      refine ⟨"invalid time " ++ s ++ ", expected format ISO 8601 or RFC 3339", ?_⟩
      simp [decode_password_credentials, decode_password_credential,
        parse_date_time, hs, hbad]
    | tail _ hmem =>
      cases h : decode_password_credential r with
      | error e => exact ⟨e, by simp [decode_password_credentials, h]⟩
      | ok c2 =>
        obtain ⟨d, hd⟩ := ih hmem
        exact ⟨d, by simp [decode_password_credentials, h, hd]⟩

/-- The failure propagates through the application object decode. -/
theorem decode_azure_application_error (a : RawAzureApplication)
    (c : RawPasswordCredential) (s : String)
    (hc : c ∈ a.password_credentials) (hs : c.end_date_time = some s)
    (hbad : scan_rfc3339 s = none) :
    ∃ d, decode_azure_application a = .error d := by
  obtain ⟨d, hd⟩ := decode_password_credentials_error a.password_credentials c s hc hs hbad
  exact ⟨d, by simp [decode_azure_application, hd]⟩

/-- The failure propagates through the `value` array decode. -/
theorem decode_azure_application_list_error (l : List RawAzureApplication)
    (a : RawAzureApplication) (c : RawPasswordCredential) (s : String)
    (ha : a ∈ l) (hc : c ∈ a.password_credentials) (hs : c.end_date_time = some s)
    (hbad : scan_rfc3339 s = none) :
    ∃ d, decode_azure_application_list l = .error d := by
  induction l with
  | nil => cases ha
  | cons r rs ih =>
    cases ha with
    | head =>
      obtain ⟨d, hd⟩ := decode_azure_application_error a c s hc hs hbad
      exact ⟨d, by simp [decode_azure_application_list, hd]⟩
    | tail _ hmem =>
      cases h : decode_azure_application r with
      | error e => exact ⟨e, by simp [decode_azure_application_list, h]⟩
      | ok a2 =>
        obtain ⟨d, hd⟩ := ih hmem
        exact ⟨d, by simp [decode_azure_application_list, h, hd]⟩

/-- The failure propagates to the whole page body. -/
theorem decode_azure_applications_error (raw : RawAzureApplications)
    (a : RawAzureApplication) (c : RawPasswordCredential) (s : String)
    (ha : a ∈ raw.value) (hc : c ∈ a.password_credentials)
    (hs : c.end_date_time = some s) (hbad : scan_rfc3339 s = none) :
    ∃ d, decode_azure_applications raw = .error d := by
  obtain ⟨d, hd⟩ := decode_azure_application_list_error raw.value a c s ha hc hs hbad
  exact ⟨d, by simp [decode_azure_applications, hd]⟩

/-- C8: a page carrying a credential whose present `endDateTime` value does
not scan as ISO 8601 / RFC 3339 fails to decode, so the whole fetch of that
cycle aborts with a decode error after that page's request; the malformed
field is a hard error — the credential never decodes to one with an absent
expiry. -/
theorem malformed_timestamp_fails_fetch {τ : Type}
    (raw_front : List (Except τ RawAzureApplications))
    (pages : List AzureApplications)
    (bad : RawAzureApplications) (rest : List (Except τ RawAzureApplications))
    (a : RawAzureApplication) (c : RawPasswordCredential) (s : String)
    (hdecode : raw_front.map get_applications_result = pages.map .ok)
    (hfront : ∀ p ∈ pages, p.next_link.isSome)
    (ha : a ∈ bad.value) (hc : c ∈ a.password_credentials)
    (hs : c.end_date_time = some s) (hbad : scan_rfc3339 s = none) :
    (∃ d : String, fetch_all_raw (raw_front ++ .ok bad :: rest) =
      (some (.error (.inr d)), pages.length + 1)) ∧
    (∃ msg, decode_password_credential c = .error msg) ∧
    (∀ pc : PasswordCredential, decode_password_credential c ≠ .ok pc) := by
  obtain ⟨d, hd⟩ := decode_azure_applications_error bad a c s ha hc hs hbad
  have hcred : decode_password_credential c =
      .error ("invalid time " ++ s ++ ", expected format ISO 8601 or RFC 3339") := by
    simp [decode_password_credential, parse_date_time, hs, hbad]
  refine ⟨⟨d, ?_⟩, ⟨_, hcred⟩, fun pc hpc => by simp [hcred] at hpc⟩
  unfold fetch_all_raw
  rw [List.map_append, hdecode, List.map_cons]
  have hbadpage : get_applications_result (τ := τ) (.ok bad) = .error (.inr d) := by
    simp [get_applications_result, hd]
  rw [hbadpage]
  exact fetch_all_abort pages (Sum.inr d : τ ⊕ String) _ hfront

/-- C8 witness: a single page whose only credential's `endDateTime` has month
13 — the fetch of that cycle fails with a decode error on its only request,
and the credential itself never decodes. -/
theorem malformed_timestamp_fails_fetch_witness :
    (∃ d : String, fetch_all_raw (τ := String)
        ([] ++ .ok ⟨none, [⟨"idz", "appz", none,
          [⟨"keyz", none, some ("2024-13-01T00:00:00Z")⟩]⟩]⟩ :: []) =
      (some (.error (.inr d)), 1)) ∧
    (∃ msg, decode_password_credential ⟨"keyz", none, some ("2024-13-01T00:00:00Z")⟩ =
      .error msg) ∧
    (∀ pc : PasswordCredential,
      decode_password_credential ⟨"keyz", none, some ("2024-13-01T00:00:00Z")⟩ ≠ .ok pc) := by
  have h := malformed_timestamp_fails_fetch (τ := String) [] []
    ⟨none, [⟨"idz", "appz", none, [⟨"keyz", none, some ("2024-13-01T00:00:00Z")⟩]⟩]⟩ []
    ⟨"idz", "appz", none, [⟨"keyz", none, some ("2024-13-01T00:00:00Z")⟩]⟩
    ⟨"keyz", none, some ("2024-13-01T00:00:00Z")⟩ ("2024-13-01T00:00:00Z")
    rfl (by simp) (by simp) (by simp) rfl rfl
  simpa using h

/-! ## C9 -/

/-- C9 counterexample: the decoder accepts "2024-01-01T00:00:00+05:00", but
the decoded instant is the date-time fields read as UTC — epoch second
1704067200, i.e. 2024-01-01T00:00:00Z — while the absolute instant the string
denotes is epoch second 1704049200 (2023-12-31T19:00:00Z):
`NaiveDateTime::parse_from_str` parses and then discards the timezone offset,
so an accepted string with a non-zero offset is not parsed as the instant it
denotes. -/
theorem parse_date_time_offset_counterexample :
    parse_date_time (some ("2024-01-01T00:00:00+05:00")) =
      .ok (some 1704067200000000000) ∧
    scan_rfc3339 ("2024-01-01T00:00:00+05:00") = some ⟨1704067200000000000, 18000⟩ ∧
    rfc3339_denoted_instant ⟨1704067200000000000, 18000⟩ = 1704049200000000000 ∧
    (1704067200000000000 : Int) ≠ 1704049200000000000 := by
  refine ⟨rfl, rfl, rfl, by decide⟩

/-- C9 (amended): an accepted `endDateTime` string decodes to its date-time
fields read as UTC, the parsed offset being discarded; whenever the parsed
offset is zero — in particular for every `Z`-suffixed string — this is
exactly the absolute instant the string denotes.  The fixture
"2024-01-01T00:00:00Z" decodes, at the credential and at the resource level,
to the expiry 1704067200000000000 ns = 2024-01-01T00:00:00 UTC exactly. -/
theorem parse_date_time_spec (s : String) (p : Rfc3339Parts)
    (h : scan_rfc3339 s = some p) :
    parse_date_time (some s) = .ok (some p.naive_nanos) ∧
    (p.offset_secs = 0 →
      parse_date_time (some s) = .ok (some (rfc3339_denoted_instant p))) ∧
    (∀ (key_id : String) (display_name : Option String),
      decode_password_credential ⟨key_id, display_name, some ("2024-01-01T00:00:00Z")⟩ =
        .ok ⟨key_id, display_name, some 1704067200000000000⟩) ∧
    (∀ (rid aid : String) (adn : Option String) (kid : String) (dn : Option String),
      decode_azure_application ⟨rid, aid, adn, [⟨kid, dn, some ("2024-01-01T00:00:00Z")⟩]⟩ =
        .ok ⟨rid, aid, adn, [⟨kid, dn, some 1704067200000000000⟩]⟩) := by
  refine ⟨by simp [parse_date_time, h], fun h0 => ?_, fun key_id display_name => rfl,
    fun rid aid adn kid dn => rfl⟩
  simp [parse_date_time, h, rfc3339_denoted_instant, h0]

/-- C9 witness: the amended statement at the `Z`-suffixed fixture — a zero
offset, so the decoded value is the denoted instant, and the fixture
credential decodes to exactly that expiry. -/
theorem parse_date_time_spec_witness :
    parse_date_time (some ("2024-01-01T00:00:00Z")) = .ok (some 1704067200000000000) ∧
    decode_password_credential ⟨"key1", none, some ("2024-01-01T00:00:00Z")⟩ =
      .ok ⟨"key1", none, some 1704067200000000000⟩ ∧
    decode_azure_application ⟨"rid1", "aid1", none,
        [⟨"key1", none, some ("2024-01-01T00:00:00Z")⟩]⟩ =
      .ok ⟨"rid1", "aid1", none, [⟨"key1", none, some 1704067200000000000⟩]⟩ := by
  have h := parse_date_time_spec ("2024-01-01T00:00:00Z") ⟨1704067200000000000, 0⟩ rfl
  exact ⟨h.1, h.2.2.1 ("key1") none, h.2.2.2 ("rid1") ("aid1") none ("key1") none⟩
